import Mathlib

/-!
# chemfiles_bin_converter

A shallow embedding of `src/assembly/chemfiles_bin_converter.cpp`: the command-line
driver that reads frames of a `BIN` trajectory from standard input and writes them to
standard output in another trajectory format, through the chemfiles library.

The program is one function, `main`. Everything it touches outside itself (the C
library function `atoll`, the chemfiles `Trajectory` objects bound to the two standard
streams, the error stream) is made explicit:

* `atoll` and the conversion to `size_t` are modelled on integers with explicit bounds;
* the `int` loop counter is a 32-bit two's complement value, compared with the `size_t`
  bound after the usual arithmetic conversion;
* the codec is a `World`: the frames still waiting on the input, the frames written so
  far, the lines printed on the error stream and the trace of codec operations.
-/

namespace ChemfilesBinConverter

/-! ## Data model -/

/-- One decoded time step, as handed over by `Trajectory::read` and consumed by
`Trajectory::write`. The driver never looks inside a frame, so the payload is kept
abstract as a list of numbers. -/
structure Frame where
  data : List Nat
  deriving DecidableEq, Repr

/-- The two `chemfiles::Trajectory` objects of `main`, by the names of the variables. -/
inductive Traj where
  | trajectory
  | output_trajectory
  deriving DecidableEq, Repr

/-- A call into the codec, as recorded in the trace. A `read` records the frame it
returned, or `none` when the input was exhausted and the call threw. -/
inductive Op where
  | openTrajectory (t : Traj) (path : String) (mode : Char) (format : String)
  | set_natoms (t : Traj) (n : Nat)
  | set_nsteps (t : Traj) (n : Nat)
  | read (t : Traj) (result : Option Frame)
  | write (t : Traj) (frame : Frame)
  deriving DecidableEq, Repr

/-- The errors the codec can throw at the driver. -/
inductive Error where
  | endOfStream
  | unsupportedFormat (format : String)
  deriving DecidableEq, Repr

/-- How `main` ends: by returning a status, or with an exception nobody catches. -/
inductive Outcome where
  | returned (code : Nat)
  | uncaught (e : Error)
  deriving DecidableEq, Repr

/-- The exit status seen by the caller of the process. An exception that leaves `main`
reaches `std::terminate`, which aborts the process (`SIGABRT`, status 134 in a shell). -/
def Outcome.exitStatus : Outcome → Nat
  | .returned code => code
  | .uncaught _ => 134

/-- Everything outside the driver: the frames not yet read from standard input, the
frames written to standard output, the lines written to the error stream, and the
codec operations performed so far, oldest first. -/
structure World where
  stdin : List Frame
  stdout : List Frame
  stderr : List String
  trace : List Op
  deriving DecidableEq, Repr

/-- The world at process start, with `input` waiting on standard input. -/
def World.init (input : List Frame) : World :=
  { stdin := input, stdout := [], stderr := [], trace := [] }

/-- The part of the chemfiles library that the driver depends on and that is a
property of the installed library: which output format names it knows. -/
structure Codec where
  accepts : String → Bool

/-! ## Integer conversions -/

def LLONG_MAX : Int := 9223372036854775807

def LLONG_MIN : Int := -9223372036854775808

/-- The C library predicate `isspace` in the "C" locale. -/
def isspace (c : Char) : Bool :=
  c.toNat = 32 || (9 ≤ c.toNat && c.toNat ≤ 13)

/-- The C library predicate `isdigit`. -/
def isdigit (c : Char) : Bool :=
  48 ≤ c.toNat && c.toNat ≤ 57

/-- The digit loop of `strtoll` in base ten: consume decimal digits from the front,
stop at the first other character. -/
def digitsValue : List Char → Nat → Nat
  | [], acc => acc
  | c :: cs, acc => if isdigit c then digitsValue cs (acc * 10 + (c.toNat - 48)) else acc

/-- The C library function `strtoll(s, NULL, 10)`: skip leading white space, take an
optional sign, convert the longest run of decimal digits, and clamp the result to the
range of `long long`. With no digit at that place the result is zero. -/
def strtoll (s : List Char) : Int :=
  match s.dropWhile isspace with
  | '-' :: rest => max LLONG_MIN (-(digitsValue rest 0 : Int))
  | '+' :: rest => min LLONG_MAX (digitsValue rest 0 : Int)
  | rest => min LLONG_MAX (digitsValue rest 0 : Int)

/-- The C library function `atoll`, which is `strtoll` without error reporting. -/
def atoll (s : String) : Int :=
  strtoll s.data

/-- The conversion `static_cast<size_t>` of a `long long`, with a 64-bit `size_t`. -/
def toSizeT (x : Int) : Nat :=
  (x % 2 ^ 64).toNat

/-- The value an `int` takes when the mathematical result is `x`: 32-bit two's
complement. Signed overflow has no defined meaning in C++; this is what the documented
build (`g++` without optimisation, on a two's complement machine) does. -/
def wrapInt32 (x : Int) : Int :=
  (x + 2 ^ 31) % 2 ^ 32 - 2 ^ 31

/-! ## The codec operations -/

/-- The constructor `chemfiles::Trajectory(path, mode, format)` on the input side. The
`BIN` format is the one the chemfiles fork named in the source adds, so opening it
succeeds. -/
def World.openInput (w : World) (path : String) (mode : Char) (format : String) : World :=
  { w with trace := w.trace ++ [Op.openTrajectory .trajectory path mode format] }

/-- The constructor `chemfiles::Trajectory(path, mode, format)` on the output side: it
throws when the library does not know the format name. -/
def World.openOutput (codec : Codec) (w : World) (path : String) (mode : Char)
    (format : String) : Except Error World :=
  if codec.accepts format then
    .ok { w with trace := w.trace ++ [Op.openTrajectory .output_trajectory path mode format] }
  else
    .error (.unsupportedFormat format)

/-- The call `trajectory.set_natoms(n)`. -/
def World.set_natoms (w : World) (n : Nat) : World :=
  { w with trace := w.trace ++ [Op.set_natoms .trajectory n] }

/-- The call `output_trajectory.set_nsteps(n)`. -/
def World.set_nsteps (w : World) (n : Nat) : World :=
  { w with trace := w.trace ++ [Op.set_nsteps .output_trajectory n] }

/-- The call `trajectory.read()`: returns and removes the next frame of the input, or
throws when the input is exhausted. The world is returned in both cases, because the
attempt is part of the trace. -/
def World.read (w : World) : Except Error Frame × World :=
  match w.stdin with
  | [] => (.error .endOfStream, { w with trace := w.trace ++ [Op.read .trajectory none] })
  | frame :: rest =>
    (.ok frame, { w with stdin := rest, trace := w.trace ++ [Op.read .trajectory (some frame)] })

/-- The call `output_trajectory.write(frame)`: appends the frame to the output. -/
def World.write (w : World) (frame : Frame) : World :=
  { w with stdout := w.stdout ++ [frame],
           trace := w.trace ++ [Op.write .output_trajectory frame] }

/-! ## The driver -/

/-- The loop `for (int i = 0; i < n_steps; i++) { read; write }`, entered with the
counter at `i`. The test compares the `int` counter with the `size_t` bound, so the
counter is converted to `size_t` first; the increment is an `int` increment. The first
argument bounds the number of tests of the loop condition; `none` means the bound was
reached. When the loop ends normally `main` runs off its end, which returns 0. -/
def driverLoop : Nat → Nat → Int → World → Option (Outcome × World)
  | 0, _, _, _ => none
  | fuel + 1, n_steps, i, w =>
    if toSizeT i < n_steps then
      match w.read with
      | (.error e, w1) => some (.uncaught e, w1)
      | (.ok frame, w1) => driverLoop fuel n_steps (wrapInt32 (i + 1)) (w1.write frame)
    else
      some (.returned 0, w)

/-- A bound on the number of loop tests that is never reached: the counter has `2 ^ 32`
values and the loop stops at the latest when it is `-1` (see `driverLoop_total`). -/
def loopFuel : Nat := 4294967296

/-- The two lines printed on the error stream when the argument count is wrong. -/
def usage (self_call : String) : List String :=
  ["This script must be called like this:",
   self_call ++ " <number of atoms> <number of frames> <output format>"]

/-- The function `main(argc, argv)`, with `argc = argv.length`. -/
def main (codec : Codec) (argv : List String) (w : World) : Option (Outcome × World) :=
  match argv with
  | [_, a1, a2, a3] =>
    let n_atoms := toSizeT (atoll a1)
    let n_steps := toSizeT (atoll a2)
    let output_format := a3
    let w := w.openInput "<stdin>" 'r' "BIN"
    let w := w.set_natoms n_atoms
    match w.openOutput codec "<stdout>" 'w' output_format with
    | .error e => some (.uncaught e, w)
    | .ok w =>
      let w := if output_format = "Amber NetCDF" then w.set_nsteps n_steps else w
      driverLoop loopFuel n_steps 0 w
  | _ =>
    let self_call := argv.headD ""
    some (.returned 1, { w with stderr := w.stderr ++ usage self_call })

/-! ## Vocabulary of the statements -/

/-- The trace of a loop that transfers the frames `fs` one by one: a read, then the
write of the frame just read. -/
def transferTrace : List Frame → List Op
  | [] => []
  | f :: fs => Op.read .trajectory (some f) :: Op.write .output_trajectory f :: transferTrace fs

/-- The trace of the configuring phase of `main` when both trajectories open: the
input is opened and told the atom count, the output is opened, and for the format
`"Amber NetCDF"` it is told the frame count. -/
def setupTrace (n_atoms n_steps : Nat) (output_format : String) : List Op :=
  [Op.openTrajectory .trajectory "<stdin>" 'r' "BIN",
   Op.set_natoms .trajectory n_atoms,
   Op.openTrajectory .output_trajectory "<stdout>" 'w' output_format]
  ++ (if output_format = "Amber NetCDF" then [Op.set_nsteps .output_trajectory n_steps] else [])

/-- A numeric argument in the sense of the specification: the whole string is a decimal
integer with an optional sign in front. -/
def isDecimalInteger (s : String) : Bool :=
  match s.data with
  | '-' :: ds => !ds.isEmpty && ds.all isdigit
  | '+' :: ds => !ds.isEmpty && ds.all isdigit
  | ds => !ds.isEmpty && ds.all isdigit

/-- The string starts with a number: after leading white space and an optional sign
comes a decimal digit. Whatever follows the digits is not looked at. -/
def startsWithNumber (s : String) : Bool :=
  match s.data.dropWhile isspace with
  | '-' :: c :: _ => isdigit c
  | '+' :: c :: _ => isdigit c
  | c :: _ => isdigit c
  | [] => false

/-- A library that knows every format name. -/
def allFormats : Codec := { accepts := fun _ => true }

/-- A library that knows the two formats named here only. -/
def someFormats : Codec := { accepts := fun s => s = "Amber NetCDF" || s = "XTC" }

/-- A library that knows the format `"XTC"` and does not know `"Amber NetCDF"`. -/
def xtcOnly : Codec := { accepts := fun s => s = "XTC" }

/-! ## Arithmetic of the loop counter -/

theorem toSizeT_lt (x : Int) : toSizeT x < 2 ^ 64 := by
  unfold toSizeT
  omega

theorem wrapInt32_succ (x : Int) : wrapInt32 (wrapInt32 x + 1) = wrapInt32 (x + 1) := by
  unfold wrapInt32
  omega

theorem wrapInt32_zero : wrapInt32 ((0 : Nat) : Int) = 0 := by
  unfold wrapInt32
  omega

theorem toSizeT_wrap_low (c : Nat) (h : c < 2 ^ 31) : toSizeT (wrapInt32 (c : Int)) = c := by
  unfold toSizeT wrapInt32
  omega

theorem toSizeT_wrap_high (c : Nat) (h1 : 2 ^ 31 ≤ c) (h2 : c < 2 ^ 32) :
    toSizeT (wrapInt32 (c : Int)) = c + (2 ^ 64 - 2 ^ 32) := by
  unfold toSizeT wrapInt32
  omega

/-! ## The loop, step by step -/

theorem driverLoop_exit (fuel n_steps : Nat) (i : Int) (w : World)
    (h : ¬ toSizeT i < n_steps) :
    driverLoop (fuel + 1) n_steps i w = some (.returned 0, w) := by
  simp [driverLoop, h]

theorem driverLoop_starved (fuel n_steps : Nat) (i : Int) (w : World)
    (h : toSizeT i < n_steps) (hin : w.stdin = []) :
    driverLoop (fuel + 1) n_steps i w
      = some (.uncaught .endOfStream,
              { w with trace := w.trace ++ [Op.read .trajectory none] }) := by
  simp [driverLoop, h, World.read, hin]

theorem driverLoop_step (fuel n_steps : Nat) (i : Int) (w : World) (f : Frame)
    (rest : List Frame) (h : toSizeT i < n_steps) (hin : w.stdin = f :: rest) :
    driverLoop (fuel + 1) n_steps i w
      = driverLoop fuel n_steps (wrapInt32 (i + 1))
          { w with stdin := rest, stdout := w.stdout ++ [f],
                   trace := w.trace ++ transferTrace [f] } := by
  simp [driverLoop, h, World.read, hin, World.write, transferTrace]

theorem transferTrace_append (fs gs : List Frame) :
    transferTrace (fs ++ gs) = transferTrace fs ++ transferTrace gs := by
  induction fs with
  | nil => rfl
  | cons f fs ih => simp [transferTrace, ih]

theorem transferTrace_length (fs : List Frame) :
    (transferTrace fs).length = 2 * fs.length := by
  induction fs with
  | nil => rfl
  | cons f fs ih => simp [transferTrace, ih]; omega

/-- As long as the loop test holds and frames are waiting, the loop moves them from
the input to the output one by one. -/
theorem driverLoop_transfer (n_steps : Nat) (fs : List Frame) :
    ∀ (fuel c : Nat) (w : World) (rest : List Frame),
      w.stdin = fs ++ rest →
      (∀ j, j < fs.length → toSizeT (wrapInt32 ((c + j : Nat) : Int)) < n_steps) →
      driverLoop (fuel + fs.length) n_steps (wrapInt32 (c : Int)) w
        = driverLoop fuel n_steps (wrapInt32 ((c + fs.length : Nat) : Int))
            { w with stdin := rest, stdout := w.stdout ++ fs,
                     trace := w.trace ++ transferTrace fs } := by
  induction fs with
  | nil =>
    intro fuel c w rest hin _
    cases w
    simp only [List.nil_append] at hin
    subst hin
    simp [transferTrace]
  | cons f fs ih =>
    intro fuel c w rest hin hlt
    have h0 : toSizeT (wrapInt32 (c : Int)) < n_steps := by
      have := hlt 0 (by simp)
      simpa using this
    have hstep := driverLoop_step (fuel + fs.length) n_steps (wrapInt32 (c : Int)) w f
      (fs ++ rest) h0 (by simpa using hin)
    have hfuel : fuel + (f :: fs).length = fuel + fs.length + 1 := by simp; omega
    rw [hfuel, hstep, wrapInt32_succ]
    have hc : ((c : Int) + 1) = ((c + 1 : Nat) : Int) := by push_cast; rfl
    rw [hc, ih fuel (c + 1) _ rest rfl]
    · have hlen : c + 1 + fs.length = c + (f :: fs).length := by simp; omega
      rw [hlen]
      simp [transferTrace]
    · intro j hj
      have := hlt (j + 1) (by simp; omega)
      have hcj : c + 1 + j = c + (j + 1) := by omega
      rw [hcj]
      exact this

/-- The loop always ends: the bound on the number of loop tests is not reached when
the counter can still get to `-1` within it. -/
theorem driverLoop_total_aux (n_steps : Nat) (hn : n_steps < 2 ^ 64) :
    ∀ (fuel c : Nat) (w : World), c < 2 ^ 32 → 2 ^ 32 ≤ fuel + c →
      (driverLoop fuel n_steps (wrapInt32 (c : Int)) w).isSome = true := by
  intro fuel
  induction fuel with
  | zero => intro c w h1 h2; omega
  | succ fuel ih =>
    intro c w h1 h2
    by_cases hlt : toSizeT (wrapInt32 (c : Int)) < n_steps
    · have hc : c + 1 < 2 ^ 32 := by
        by_contra hcon
        have hhigh := toSizeT_wrap_high c (by omega) h1
        omega
      cases hin : w.stdin with
      | nil => rw [driverLoop_starved fuel n_steps _ w hlt hin]; rfl
      | cons f rest =>
        rw [driverLoop_step fuel n_steps _ w f rest hlt hin, wrapInt32_succ]
        have hcast : ((c : Int) + 1) = ((c + 1 : Nat) : Int) := by push_cast; rfl
        rw [hcast]
        exact ih (c + 1) _ hc (by omega)
    · rw [driverLoop_exit fuel n_steps _ w hlt]; rfl

theorem driverLoop_total (n_steps : Nat) (hn : n_steps < 2 ^ 64) (w : World) :
    ∃ r, driverLoop loopFuel n_steps 0 w = some r := by
  have h := driverLoop_total_aux n_steps hn loopFuel 0 w (by norm_num) (by norm_num [loopFuel])
  rw [wrapInt32_zero] at h
  exact Option.isSome_iff_exists.mp h

/-- The loop returns normally after exactly `fs.length` iterations when the loop test
holds for the counter values before that and fails at that one. -/
theorem driverLoop_returns (n_steps : Nat) (w : World) (fs rest : List Frame)
    (hin : w.stdin = fs ++ rest) (hk : fs.length < 2 ^ 32)
    (hlt : ∀ j, j < fs.length → toSizeT (wrapInt32 ((j : Nat) : Int)) < n_steps)
    (hstop : ¬ toSizeT (wrapInt32 ((fs.length : Nat) : Int)) < n_steps) :
    driverLoop loopFuel n_steps 0 w
      = some (.returned 0, { w with stdin := rest, stdout := w.stdout ++ fs,
                                    trace := w.trace ++ transferTrace fs }) := by
  have hfuel : loopFuel = (loopFuel - fs.length - 1 + 1) + fs.length := by
    have : loopFuel = 2 ^ 32 := by norm_num [loopFuel]
    omega
  have h := driverLoop_transfer n_steps fs (loopFuel - fs.length - 1 + 1) 0 w rest hin
    (by intro j hj; simpa using hlt j hj)
  rw [wrapInt32_zero] at h
  rw [hfuel, h]
  simp only [Nat.zero_add]
  exact driverLoop_exit _ n_steps _ _ hstop

/-- The loop ends with an exception after exactly `fs.length` iterations when the loop
test holds up to and including that counter value and the input holds `fs` only. -/
theorem driverLoop_fails (n_steps : Nat) (w : World) (fs : List Frame)
    (hin : w.stdin = fs) (hk : fs.length < 2 ^ 32)
    (hlt : ∀ j, j ≤ fs.length → toSizeT (wrapInt32 ((j : Nat) : Int)) < n_steps) :
    driverLoop loopFuel n_steps 0 w
      = some (.uncaught .endOfStream,
              { w with stdin := [], stdout := w.stdout ++ fs,
                       trace := w.trace ++ transferTrace fs ++ [Op.read .trajectory none] }) := by
  have hfuel : loopFuel = (loopFuel - fs.length - 1 + 1) + fs.length := by
    have : loopFuel = 2 ^ 32 := by norm_num [loopFuel]
    omega
  have h := driverLoop_transfer n_steps fs (loopFuel - fs.length - 1 + 1) 0 w [] (by simpa using hin)
    (by intro j hj; simpa using hlt j (by omega))
  rw [wrapInt32_zero] at h
  rw [hfuel, h]
  simp only [Nat.zero_add]
  rw [driverLoop_starved _ n_steps _ _ (hlt fs.length (le_refl _)) rfl]

/-- Whatever the bound and the input, a loop that ends has moved a prefix of the input
to the output, one read and one write per frame, and either returned 0 or stopped at a
read on the exhausted input. -/
theorem driverLoop_shape (n_steps : Nat) :
    ∀ (fuel : Nat) (i : Int) (w : World) (o : Outcome) (w' : World),
      driverLoop fuel n_steps i w = some (o, w') →
      ∃ fs rest, w.stdin = fs ++ rest ∧ w'.stdin = rest ∧ w'.stdout = w.stdout ++ fs ∧
        w'.stderr = w.stderr ∧
        ((o = .returned 0 ∧ w'.trace = w.trace ++ transferTrace fs) ∨
         (o = .uncaught .endOfStream ∧ rest = [] ∧
            w'.trace = w.trace ++ transferTrace fs ++ [Op.read .trajectory none])) := by
  intro fuel
  induction fuel with
  | zero => intro i w o w' h; simp [driverLoop] at h
  | succ fuel ih =>
    intro i w o w' h
    by_cases hlt : toSizeT i < n_steps
    · cases hin : w.stdin with
      | nil =>
        rw [driverLoop_starved fuel n_steps i w hlt hin] at h
        simp only [Option.some.injEq, Prod.mk.injEq] at h
        obtain ⟨ho, hw⟩ := h
        subst ho; subst hw
        exact ⟨[], [], by simp, by simp [hin], by simp, rfl, Or.inr ⟨rfl, rfl, by simp [transferTrace]⟩⟩
      | cons f rest0 =>
        rw [driverLoop_step fuel n_steps i w f rest0 hlt hin] at h
        obtain ⟨fs, rest, h1, h2, h3, h4, h5⟩ := ih _ _ o w' h
        simp only at h1 h3 h4 h5
        refine ⟨f :: fs, rest, by simp [h1], h2, by simp [h3], h4, ?_⟩
        rcases h5 with ⟨ho, ht⟩ | ⟨ho, hr, ht⟩
        · exact Or.inl ⟨ho, by simp [ht, transferTrace]⟩
        · exact Or.inr ⟨ho, hr, by simp [ht, transferTrace]⟩
    · rw [driverLoop_exit fuel n_steps i w hlt] at h
      simp only [Option.some.injEq, Prod.mk.injEq] at h
      obtain ⟨ho, hw⟩ := h
      subst ho; subst hw
      exact ⟨[], w.stdin, by simp, rfl, by simp, rfl, Or.inl ⟨rfl, by simp [transferTrace]⟩⟩

/-! ## `main`, phase by phase -/

theorem main_wrong_argc (codec : Codec) (self : String) (args : List String) (w : World)
    (h : args.length ≠ 3) :
    main codec (self :: args) w
      = some (.returned 1, { w with stderr := w.stderr ++ usage self }) := by
  match args, h with
  | [], _ => rfl
  | [_], _ => rfl
  | [_, _], _ => rfl
  | [_, _, _], h => simp at h
  | _ :: _ :: _ :: _ :: _, _ => rfl

theorem main_rejected (codec : Codec) (self a1 a2 a3 : String) (w : World)
    (h : codec.accepts a3 = false) :
    main codec [self, a1, a2, a3] w
      = some (.uncaught (.unsupportedFormat a3),
              { w with trace := w.trace ++ [Op.openTrajectory .trajectory "<stdin>" 'r' "BIN",
                                            Op.set_natoms .trajectory (toSizeT (atoll a1))] }) := by
  simp [main, World.openOutput, World.openInput, World.set_natoms, h]

theorem main_accepted (codec : Codec) (self a1 a2 a3 : String) (w : World)
    (h : codec.accepts a3 = true) :
    main codec [self, a1, a2, a3] w
      = driverLoop loopFuel (toSizeT (atoll a2)) 0
          { w with trace := w.trace ++ setupTrace (toSizeT (atoll a1)) (toSizeT (atoll a2)) a3 } := by
  by_cases hf : a3 = "Amber NetCDF"
  · subst hf
    simp [main, World.openOutput, World.openInput, World.set_natoms, World.set_nsteps, h,
      setupTrace]
  · simp [main, World.openOutput, World.openInput, World.set_natoms, World.set_nsteps, h, hf,
      setupTrace]

/-- The program always ends, and with three arguments a run is the configuring phase
followed by what the loop does. -/
theorem main_total (codec : Codec) (argv : List String) (w : World) :
    ∃ r, main codec argv w = some r := by
  match argv with
  | [] => exact ⟨_, rfl⟩
  | [_] => exact ⟨_, rfl⟩
  | [_, _] => exact ⟨_, rfl⟩
  | [_, _, _] => exact ⟨_, rfl⟩
  | _ :: _ :: _ :: _ :: _ :: _ => exact ⟨_, rfl⟩
  | [self, a1, a2, a3] =>
    cases h : codec.accepts a3 with
    | false => exact ⟨_, main_rejected codec self a1 a2 a3 w h⟩
    | true =>
      rw [main_accepted codec self a1 a2 a3 w h]
      exact driverLoop_total _ (toSizeT_lt _) _

/-! ## The conversion of the count arguments -/

theorem toSizeT_zero : toSizeT 0 = 0 := by
  unfold toSizeT
  omega

theorem digitsValue_of_not_digit (c : Char) (cs : List Char) (acc : Nat)
    (h : isdigit c = false) : digitsValue (c :: cs) acc = acc := by
  simp [digitsValue, h]

/-- Without a digit after the white space and the sign, `atoll` gives zero. -/
theorem atoll_of_not_startsWithNumber (s : String) (h : startsWithNumber s = false) :
    atoll s = 0 := by
  unfold startsWithNumber at h
  unfold atoll strtoll
  split at h
  · next c rest heq =>
    rw [heq]
    simp [digitsValue_of_not_digit _ _ _ h, LLONG_MIN]
  · next c rest heq =>
    rw [heq]
    simp [digitsValue_of_not_digit _ _ _ h, LLONG_MAX]
  · next c rest hm hp heq =>
    rw [heq]
    split
    · next r0 heq2 =>
      have hr : rest = r0 := (List.cons.inj heq2).2
      have hc : c = '-' := (List.cons.inj heq2).1
      subst hr; subst hc
      cases rest with
      | nil => simp [digitsValue, LLONG_MIN]
      | cons d ds => exact absurd rfl (fun e => hm d ds rfl e)
    · next r0 heq2 =>
      have hr : rest = r0 := (List.cons.inj heq2).2
      have hc : c = '+' := (List.cons.inj heq2).1
      subst hr; subst hc
      cases rest with
      | nil => simp [digitsValue, LLONG_MAX]
      | cons d ds => exact absurd rfl (fun e => hp d ds rfl e)
    · simp [digitsValue_of_not_digit _ _ _ h, LLONG_MAX]
  · next heq =>
    rw [heq]
    simp [digitsValue, LLONG_MAX]

theorem mem_transferTrace (op : Op) (fs : List Frame) (h : op ∈ transferTrace fs) :
    (∃ f, op = Op.read .trajectory (some f)) ∨ (∃ f, op = Op.write .output_trajectory f) := by
  induction fs with
  | nil => simp [transferTrace] at h
  | cons f fs ih =>
    simp only [transferTrace, List.mem_cons] at h
    rcases h with h | h | h
    · exact Or.inl ⟨f, h⟩
    · exact Or.inr ⟨f, h⟩
    · exact ih h

/-- With an accepted output format a run is the configuring phase followed by the
transfer of a prefix `fs` of the input, and possibly one read on the exhausted input. -/
theorem main_accepted_shape (codec : Codec) (self a1 a2 a3 : String) (input : List Frame)
    (h : codec.accepts a3 = true) :
    ∃ o w' fs rest tail, main codec [self, a1, a2, a3] (World.init input) = some (o, w') ∧
      input = fs ++ rest ∧ w'.stdin = rest ∧ w'.stdout = fs ∧ w'.stderr = [] ∧
      w'.trace = setupTrace (toSizeT (atoll a1)) (toSizeT (atoll a2)) a3
                  ++ transferTrace fs ++ tail ∧
      ((o = .returned 0 ∧ tail = []) ∨
       (o = .uncaught .endOfStream ∧ rest = [] ∧ tail = [Op.read .trajectory none])) := by
  obtain ⟨⟨o, w'⟩, hr⟩ := main_total codec [self, a1, a2, a3] (World.init input)
  have hl := hr
  rw [main_accepted codec self a1 a2 a3 _ h] at hl
  obtain ⟨fs, rest, h1, h2, h3, h4, h5⟩ := driverLoop_shape _ _ _ _ o w' hl
  simp only [World.init, List.nil_append] at h1 h3 h4 h5
  rcases h5 with ⟨ho, ht⟩ | ⟨ho, hrest, ht⟩
  · exact ⟨o, w', fs, rest, [], hr, h1, h2, h3, h4, by simp [ht], Or.inl ⟨ho, rfl⟩⟩
  · exact ⟨o, w', fs, rest, _, hr, h1, h2, h3, h4, ht, Or.inr ⟨ho, hrest, rfl⟩⟩

/-! ## Argument count -/

/-- C2. When the number of arguments after the program name is not three, `main` prints
the two usage lines on the error stream, returns 1 and leaves the input, the output and
the trace of codec operations untouched; with exactly three arguments nothing is
printed on the error stream and the run starts by opening the input trajectory. -/
theorem main_usage_iff_wrong_argument_count (codec : Codec) (self : String)
    (args : List String) (w : World) :
    (args.length ≠ 3 →
      main codec (self :: args) w
        = some (.returned 1,
                { w with stderr := w.stderr ++
                    ["This script must be called like this:",
                     self ++ " <number of atoms> <number of frames> <output format>"] })) ∧
    (args.length = 3 →
      ∃ o w' ops, main codec (self :: args) w = some (o, w') ∧ w'.stderr = w.stderr ∧
        w'.trace = w.trace ++ Op.openTrajectory .trajectory "<stdin>" 'r' "BIN" :: ops) := by
  refine ⟨fun h => main_wrong_argc codec self args w h, fun h => ?_⟩
  match args, h with
  | [a1, a2, a3], _ =>
    obtain ⟨⟨o, w'⟩, hr⟩ := main_total codec [self, a1, a2, a3] w
    cases hacc : codec.accepts a3 with
    | false =>
      have hrej := main_rejected codec self a1 a2 a3 w hacc
      exact ⟨_, _, [Op.set_natoms .trajectory (toSizeT (atoll a1))], hrej, rfl, by simp⟩
    | true =>
      have hl := hr
      rw [main_accepted codec self a1 a2 a3 w hacc] at hl
      obtain ⟨fs, rest, _, _, _, h4, h5⟩ := driverLoop_shape _ _ _ _ o w' hl
      simp only at h4 h5
      have hex : ∃ ops, w'.trace
          = w.trace ++ Op.openTrajectory .trajectory "<stdin>" 'r' "BIN" :: ops := by
        rcases h5 with ⟨_, ht⟩ | ⟨_, _, ht⟩
        · exact ⟨_, by rw [ht, setupTrace]; simp only [List.append_assoc, List.cons_append]; rfl⟩
        · exact ⟨_, by rw [ht, setupTrace]; simp only [List.append_assoc, List.cons_append]; rfl⟩
      obtain ⟨ops, hops⟩ := hex
      exact ⟨o, w', ops, hr, h4, hops⟩

theorem main_usage_iff_wrong_argument_count_witness :
    main someFormats ["chemfiles_bin_converter", "10"] (World.init [⟨[7]⟩])
        = some (.returned 1,
                { stdin := [⟨[7]⟩], stdout := [], trace := [],
                  stderr := ["This script must be called like this:",
                    "chemfiles_bin_converter <number of atoms> <number of frames> <output format>"] }) ∧
      ∃ o w' ops, main someFormats ["chemfiles_bin_converter", "10", "1", "XTC"]
          (World.init [⟨[7]⟩]) = some (o, w') ∧ w'.stderr = [] ∧
        w'.trace = Op.openTrajectory .trajectory "<stdin>" 'r' "BIN" :: ops :=
  ⟨(main_usage_iff_wrong_argument_count someFormats "chemfiles_bin_converter" ["10"]
      (World.init [⟨[7]⟩])).1 (by decide),
   (main_usage_iff_wrong_argument_count someFormats "chemfiles_bin_converter" ["10", "1", "XTC"]
      (World.init [⟨[7]⟩])).2 (by decide)⟩

/-! ## The configuring phase -/

theorem set_nsteps_not_mem_loop (fs : List Frame) (tail : List Op)
    (htail : tail = [] ∨ tail = [Op.read .trajectory none]) (t : Traj) (n : Nat) :
    Op.set_nsteps t n ∉ transferTrace fs ++ tail := by
  intro hmem
  rcases List.mem_append.mp hmem with h | h
  · rcases mem_transferTrace _ _ h with ⟨f, hf⟩ | ⟨f, hf⟩ <;> cases hf
  · rcases htail with ht | ht <;> simp [ht] at h

theorem set_natoms_not_mem_loop (fs : List Frame) (tail : List Op)
    (htail : tail = [] ∨ tail = [Op.read .trajectory none]) (t : Traj) (n : Nat) :
    Op.set_natoms t n ∉ transferTrace fs ++ tail := by
  intro hmem
  rcases List.mem_append.mp hmem with h | h
  · rcases mem_transferTrace _ _ h with ⟨f, hf⟩ | ⟨f, hf⟩ <;> cases hf
  · rcases htail with ht | ht <;> simp [ht] at h

/-- C4, counterexample. With a library that does not know `"Amber NetCDF"`, the run
with that output format ends at the constructor of the output trajectory, and
`set_nsteps` is not called although the format is the string `"Amber NetCDF"`. -/
theorem set_nsteps_absent_when_netcdf_rejected :
    ∃ w', main xtcOnly ["chemfiles_bin_converter", "1", "1", "Amber NetCDF"]
        (World.init [Frame.mk []])
          = some (.uncaught (.unsupportedFormat "Amber NetCDF"), w') ∧
      (¬ ∃ t n, Op.set_nsteps t n ∈ w'.trace) ∧
      ¬ ((∃ t n, Op.set_nsteps t n ∈ w'.trace) ↔ "Amber NetCDF" = "Amber NetCDF") := by
  have hno : ¬ ∃ t n, Op.set_nsteps t n ∈
      (World.init [Frame.mk []]).trace ++ [Op.openTrajectory .trajectory "<stdin>" 'r' "BIN",
        Op.set_natoms .trajectory (toSizeT (atoll "1"))] := by
    rintro ⟨t, n, h⟩
    simp [World.init] at h
  exact ⟨_, main_rejected xtcOnly _ "1" "1" "Amber NetCDF" _ (by decide), hno,
    fun hiff => hno (hiff.mpr rfl)⟩

/-- C4, amended. On every run with three arguments `set_nsteps` occurs in the trace
exactly when the output format is the string `"Amber NetCDF"` and the library accepts
it, so that the output trajectory opens; then it occurs once, on the output trajectory,
with the parsed frame count, and no write comes before it. For every other format
string, and when the output constructor throws, it does not occur. -/
theorem set_nsteps_iff_amber_netcdf_accepted (codec : Codec) (self a1 a2 a3 : String)
    (input : List Frame) :
    ∃ o w', main codec [self, a1, a2, a3] (World.init input) = some (o, w') ∧
      ((∃ t n, Op.set_nsteps t n ∈ w'.trace)
        ↔ (a3 = "Amber NetCDF" ∧ codec.accepts a3 = true)) ∧
      (a3 = "Amber NetCDF" → codec.accepts a3 = true →
        ∃ pre post,
          w'.trace = pre ++ Op.set_nsteps .output_trajectory (toSizeT (atoll a2)) :: post ∧
          (∀ t n, Op.set_nsteps t n ∉ pre) ∧ (∀ t n, Op.set_nsteps t n ∉ post) ∧
          (∀ t f, Op.write t f ∉ pre)) := by
  cases hacc : codec.accepts a3 with
  | false =>
    refine ⟨_, _, main_rejected codec self a1 a2 a3 _ hacc, ?_, fun _ h => by cases h⟩
    simp [World.init]
  | true =>
    obtain ⟨o, w', fs, rest, tail, hr, -, -, -, -, ht, hcase⟩ :=
      main_accepted_shape codec self a1 a2 a3 input hacc
    have htail : tail = [] ∨ tail = [Op.read .trajectory none] := by
      rcases hcase with ⟨_, h⟩ | ⟨_, _, h⟩
      · exact Or.inl h
      · exact Or.inr h
    refine ⟨o, w', hr, ?_, ?_⟩
    · constructor
      · rintro ⟨t, n, hmem⟩
        refine ⟨?_, rfl⟩
        by_contra hne
        rw [ht, setupTrace, if_neg hne, List.append_assoc] at hmem
        rcases List.mem_append.mp hmem with h | h
        · simp at h
        · exact set_nsteps_not_mem_loop fs tail htail t n h
      · rintro ⟨heq, -⟩
        refine ⟨.output_trajectory, toSizeT (atoll a2), ?_⟩
        rw [ht, setupTrace, if_pos heq]
        simp
    · intro heq _
      refine ⟨[Op.openTrajectory .trajectory "<stdin>" 'r' "BIN",
               Op.set_natoms .trajectory (toSizeT (atoll a1)),
               Op.openTrajectory .output_trajectory "<stdout>" 'w' a3],
              transferTrace fs ++ tail, ?_, ?_, ?_, ?_⟩
      · rw [ht, setupTrace, if_pos heq]
        simp
      · intro t n h
        simp at h
      · exact fun t n => set_nsteps_not_mem_loop fs tail htail t n
      · intro t f h
        simp at h

theorem set_nsteps_iff_amber_netcdf_accepted_witness :
    ∃ o w', main someFormats ["chemfiles_bin_converter", "2", "1", "Amber NetCDF"]
        (World.init [Frame.mk [1, 2]]) = some (o, w') ∧
      ∃ pre post,
        w'.trace = pre ++ Op.set_nsteps .output_trajectory (toSizeT (atoll "1")) :: post ∧
        (∀ t n, Op.set_nsteps t n ∉ pre) ∧ (∀ t n, Op.set_nsteps t n ∉ post) ∧
        (∀ t f, Op.write t f ∉ pre) := by
  obtain ⟨o, w', hr, -, h⟩ := set_nsteps_iff_amber_netcdf_accepted someFormats
    "chemfiles_bin_converter" "2" "1" "Amber NetCDF" [Frame.mk [1, 2]]
  exact ⟨o, w', hr, h rfl (by decide)⟩

theorem main_trace_head (codec : Codec) (self a1 a2 a3 : String)
    (input : List Frame) :
    ∃ o w' post, main codec [self, a1, a2, a3] (World.init input) = some (o, w') ∧
      w'.trace = Op.openTrajectory .trajectory "<stdin>" 'r' "BIN"
                  :: Op.set_natoms .trajectory (toSizeT (atoll a1)) :: post ∧
      (∀ t n, Op.set_natoms t n ∉ post) := by
  cases hacc : codec.accepts a3 with
  | false =>
    refine ⟨_, _, [], main_rejected codec self a1 a2 a3 _ hacc, ?_, ?_⟩
    · simp [World.init]
    · intro t n h
      simp at h
  | true =>
    obtain ⟨o, w', fs, rest, tail, hr, -, -, -, -, ht, hcase⟩ :=
      main_accepted_shape codec self a1 a2 a3 input hacc
    have htail : tail = [] ∨ tail = [Op.read .trajectory none] := by
      rcases hcase with ⟨_, h⟩ | ⟨_, _, h⟩
      · exact Or.inl h
      · exact Or.inr h
    refine ⟨o, w', (Op.openTrajectory .output_trajectory "<stdout>" 'w' a3
        :: (if a3 = "Amber NetCDF" then [Op.set_nsteps .output_trajectory (toSizeT (atoll a2))]
            else [])) ++ (transferTrace fs ++ tail), hr, ?_, ?_⟩
    · rw [ht, setupTrace]
      simp
    · intro t n hmem
      rcases List.mem_append.mp hmem with h | h
      · by_cases hf : a3 = "Amber NetCDF" <;> simp [hf] at h
      · exact set_natoms_not_mem_loop fs tail htail t n h

/-- C8. On every run with three arguments the trace starts with the opening of the
input trajectory, followed at once by `set_natoms` on it with the parsed atom count;
nothing after that is a `set_natoms`, so the call is the only one and comes before
every read. -/
theorem set_natoms_once_before_reads (codec : Codec) (self a1 a2 a3 : String)
    (input : List Frame) :
    ∃ o w' post, main codec [self, a1, a2, a3] (World.init input) = some (o, w') ∧
      w'.trace = Op.openTrajectory .trajectory "<stdin>" 'r' "BIN"
                  :: Op.set_natoms .trajectory (toSizeT (atoll a1)) :: post ∧
      (∀ t n, Op.set_natoms t n ∉ post) :=
  main_trace_head codec self a1 a2 a3 input

/-! ## No frame to convert -/

theorem main_of_zero_steps (codec : Codec) (self a1 a2 a3 : String) (input : List Frame)
    (hzero : toSizeT (atoll a2) = 0) (hacc : codec.accepts a3 = true) :
    main codec [self, a1, a2, a3] (World.init input)
      = some (.returned 0,
              { stdin := input, stdout := [], stderr := [],
                trace :=
                  [Op.openTrajectory .trajectory "<stdin>" 'r' "BIN",
                   Op.set_natoms .trajectory (toSizeT (atoll a1)),
                   Op.openTrajectory .output_trajectory "<stdout>" 'w' a3]
                  ++ (if a3 = "Amber NetCDF" then [Op.set_nsteps .output_trajectory 0]
                      else []) }) := by
  rw [main_accepted codec self a1 a2 a3 _ hacc, hzero]
  have hfuel : loopFuel = (loopFuel - 1) + 1 := by norm_num [loopFuel]
  rw [hfuel, driverLoop_exit _ 0 0 _ (by omega)]
  simp [World.init, setupTrace]

/-- C6. When the frame count argument converts to zero (as `"0"` does) and the output
format is accepted, `main` returns 0 without a read or a write, whatever the atom count
and the input: the input and the output are as before, and the trace is the configuring
phase alone, in which `set_nsteps 0` appears for `"Amber NetCDF"` and for no other
format. -/
theorem zero_frames (codec : Codec) (self a1 a2 a3 : String) (input : List Frame)
    (hzero : toSizeT (atoll a2) = 0) (hacc : codec.accepts a3 = true) :
    main codec [self, a1, a2, a3] (World.init input)
      = some (.returned 0,
              { stdin := input, stdout := [], stderr := [],
                trace :=
                  [Op.openTrajectory .trajectory "<stdin>" 'r' "BIN",
                   Op.set_natoms .trajectory (toSizeT (atoll a1)),
                   Op.openTrajectory .output_trajectory "<stdout>" 'w' a3]
                  ++ (if a3 = "Amber NetCDF" then [Op.set_nsteps .output_trajectory 0]
                      else []) }) ∧
    (Outcome.returned 0).exitStatus = 0 :=
  ⟨main_of_zero_steps codec self a1 a2 a3 input hzero hacc, rfl⟩

theorem zero_frames_witness :
    main someFormats ["chemfiles_bin_converter", "3", "0", "Amber NetCDF"] (World.init [])
      = some (.returned 0,
              { stdin := [], stdout := [], stderr := [],
                trace :=
                  [Op.openTrajectory .trajectory "<stdin>" 'r' "BIN",
                   Op.set_natoms .trajectory (toSizeT (atoll "3")),
                   Op.openTrajectory .output_trajectory "<stdout>" 'w' "Amber NetCDF"]
                  ++ (if "Amber NetCDF" = "Amber NetCDF"
                      then [Op.set_nsteps .output_trajectory 0] else []) }) ∧
    (Outcome.returned 0).exitStatus = 0 :=
  zero_frames someFormats "chemfiles_bin_converter" "3" "0" "Amber NetCDF" []
    (by decide) (by decide)

/-! ## Count arguments that are not plain numbers -/

/-- C7, counterexample. The string `"12abc"` is not a decimal integer, and its
conversion is 12, not zero. -/
theorem atoll_numeric_prefix_not_zero :
    isDecimalInteger "12abc" = false ∧ toSizeT (atoll "12abc") = 12 ∧
      ¬ (∀ s : String, isDecimalInteger s = false → toSizeT (atoll s) = 0) := by
  refine ⟨by decide, by decide, fun h => ?_⟩
  have h12 := h "12abc" (by decide)
  revert h12
  decide

/-- C7, amended. A count argument that does not start with a number (no decimal digit
after the leading white space and the optional sign) converts to zero, and no error is
raised: as atom count it is passed on as `set_natoms 0`, as frame count it makes `main`
return 0 without reading or writing a frame. -/
theorem count_without_leading_digit_is_zero (s : String)
    (h : startsWithNumber s = false) :
    toSizeT (atoll s) = 0 ∧
    (∀ (codec : Codec) (self a2 a3 : String) (input : List Frame),
      ∃ o w' post, main codec [self, s, a2, a3] (World.init input) = some (o, w') ∧
        w'.trace = Op.openTrajectory .trajectory "<stdin>" 'r' "BIN"
                    :: Op.set_natoms .trajectory 0 :: post) ∧
    (∀ (codec : Codec) (self a1 a3 : String) (input : List Frame),
      codec.accepts a3 = true →
      ∃ w', main codec [self, a1, s, a3] (World.init input) = some (.returned 0, w') ∧
        w'.stdin = input ∧ w'.stdout = []) := by
  have hz : toSizeT (atoll s) = 0 := by
    rw [atoll_of_not_startsWithNumber s h, toSizeT_zero]
  refine ⟨hz, ?_, ?_⟩
  · intro codec self a2 a3 input
    obtain ⟨o, w', post, hr, ht, -⟩ := main_trace_head codec self s a2 a3 input
    rw [hz] at ht
    exact ⟨o, w', post, hr, ht⟩
  · intro codec self a1 a3 input hacc
    exact ⟨_, main_of_zero_steps codec self a1 s a3 input hz hacc, rfl, rfl⟩

theorem count_without_leading_digit_is_zero_witness :
    toSizeT (atoll "abc") = 0 ∧
    (∀ (codec : Codec) (self a2 a3 : String) (input : List Frame),
      ∃ o w' post, main codec [self, "abc", a2, a3] (World.init input) = some (o, w') ∧
        w'.trace = Op.openTrajectory .trajectory "<stdin>" 'r' "BIN"
                    :: Op.set_natoms .trajectory 0 :: post) ∧
    (∀ (codec : Codec) (self a1 a3 : String) (input : List Frame),
      codec.accepts a3 = true →
      ∃ w', main codec [self, a1, "abc", a3] (World.init input) = some (.returned 0, w') ∧
        w'.stdin = input ∧ w'.stdout = []) :=
  count_without_leading_digit_is_zero "abc" (by decide)

/-- Up to `2 ^ 31` frames the loop does what its bound says: with at least `n_steps`
frames waiting it moves exactly the first `n_steps` of them and returns 0. -/
theorem driverLoop_within_int (n_steps : Nat) (hn : n_steps ≤ 2 ^ 31) (w : World)
    (fs rest : List Frame) (hin : w.stdin = fs ++ rest) (hlen : fs.length = n_steps) :
    driverLoop loopFuel n_steps 0 w
      = some (.returned 0, { w with stdin := rest, stdout := w.stdout ++ fs,
                                    trace := w.trace ++ transferTrace fs }) := by
  apply driverLoop_returns n_steps w fs rest hin (by omega)
  · intro j hj
    rw [toSizeT_wrap_low j (by omega)]
    omega
  · rw [hlen]
    by_cases h : n_steps < 2 ^ 31
    · rw [toSizeT_wrap_low n_steps h]
      omega
    · rw [toSizeT_wrap_high n_steps (by omega) (by omega)]
      omega

/-- An input of fewer frames than the bound, and fewer than `2 ^ 31`, is moved to the
output completely; then the next read throws. -/
theorem driverLoop_short_input (n_steps : Nat) (w : World) (fs : List Frame)
    (hin : w.stdin = fs) (hshort : fs.length < n_steps) (hint : fs.length < 2 ^ 31) :
    driverLoop loopFuel n_steps 0 w
      = some (.uncaught .endOfStream,
              { w with stdin := [], stdout := w.stdout ++ fs,
                       trace := w.trace ++ transferTrace fs ++ [Op.read .trajectory none] }) := by
  apply driverLoop_fails n_steps w fs hin (by omega)
  intro j hj
  rw [toSizeT_wrap_low j (by omega)]
  omega

/-- A bound above `2 ^ 31` (and not within `2 ^ 31` of `2 ^ 64`) is never reached by the
`int` counter: after `2 ^ 31` iterations the counter wraps to `-2 ^ 31`, which converts
to a `size_t` above the bound, and the loop returns normally. -/
theorem driverLoop_counter_overflow (n_steps : Nat) (h1 : 2 ^ 31 ≤ n_steps)
    (h2 : n_steps ≤ 2 ^ 64 - 2 ^ 31) (w : World) (fs rest : List Frame)
    (hin : w.stdin = fs ++ rest) (hlen : fs.length = 2 ^ 31) :
    driverLoop loopFuel n_steps 0 w
      = some (.returned 0, { w with stdin := rest, stdout := w.stdout ++ fs,
                                    trace := w.trace ++ transferTrace fs }) := by
  apply driverLoop_returns n_steps w fs rest hin (by omega)
  · intro j hj
    rw [toSizeT_wrap_low j (by omega)]
    omega
  · rw [hlen, toSizeT_wrap_high (2 ^ 31) (le_refl _) (by norm_num)]
    omega

/-- Within the range of the counter the conversion is right: for an accepted format, a
frame count of at most `2 ^ 31` and an input of at least that many frames, `main`
returns 0 and the output is the first `frame count` frames of the input. -/
theorem main_converts_within_int (codec : Codec) (self a1 a2 a3 : String)
    (input : List Frame) (hacc : codec.accepts a3 = true)
    (hint : toSizeT (atoll a2) ≤ 2 ^ 31) (hlen : toSizeT (atoll a2) ≤ input.length) :
    ∃ w', main codec [self, a1, a2, a3] (World.init input) = some (.returned 0, w') ∧
      w'.stdout = input.take (toSizeT (atoll a2)) ∧
      w'.stdin = input.drop (toSizeT (atoll a2)) ∧
      w'.trace = setupTrace (toSizeT (atoll a1)) (toSizeT (atoll a2)) a3
                  ++ transferTrace (input.take (toSizeT (atoll a2))) := by
  rw [main_accepted codec self a1 a2 a3 _ hacc]
  rw [driverLoop_within_int _ hint _ (input.take (toSizeT (atoll a2)))
    (input.drop (toSizeT (atoll a2))) (by simp [World.init])
    (by rw [List.length_take]; omega)]
  exact ⟨_, rfl, by simp [World.init], rfl, by simp [World.init]⟩

/-- Within the range of the counter starvation is fatal: for an accepted format and an
input of `m` frames, with `m` below the frame count and below `2 ^ 31`, `main` ends
with the end-of-stream exception (exit status 134), after it has read and written the
`m` frames in order; the failed read is the last operation. -/
theorem main_starves_within_int (codec : Codec) (self a1 a2 a3 : String)
    (input : List Frame) (hacc : codec.accepts a3 = true)
    (hshort : input.length < toSizeT (atoll a2)) (hint : input.length < 2 ^ 31) :
    ∃ w', main codec [self, a1, a2, a3] (World.init input)
        = some (.uncaught .endOfStream, w') ∧
      (Outcome.uncaught .endOfStream).exitStatus ≠ 0 ∧
      w'.stdout = input ∧ w'.stdin = [] ∧
      w'.trace = setupTrace (toSizeT (atoll a1)) (toSizeT (atoll a2)) a3
                  ++ transferTrace input ++ [Op.read .trajectory none] := by
  rw [main_accepted codec self a1 a2 a3 _ hacc]
  rw [driverLoop_short_input _ _ input (by simp [World.init]) hshort hint]
  exact ⟨_, rfl, by decide, by simp [World.init], rfl, by simp [World.init]⟩

/-- Within the range of the counter the declared count is the written count: for
`"Amber NetCDF"` and a frame count of at most `2 ^ 31`, a run that exits with status 0
has written as many frames as `set_nsteps` declared, and a run that has written fewer
exits with a status other than 0. -/
theorem main_declared_count_within_int (codec : Codec) (self a1 a2 : String)
    (input : List Frame) (hint : toSizeT (atoll a2) ≤ 2 ^ 31) (o : Outcome) (w' : World)
    (hr : main codec [self, a1, a2, "Amber NetCDF"] (World.init input) = some (o, w')) :
    (o.exitStatus = 0 → w'.stdout.length = toSizeT (atoll a2)) ∧
    (w'.stdout.length < toSizeT (atoll a2) → o.exitStatus ≠ 0) := by
  have key : o.exitStatus = 0 → w'.stdout.length = toSizeT (atoll a2) := by
    intro hexit
    cases hacc : codec.accepts "Amber NetCDF" with
    | false =>
      rw [main_rejected codec self a1 a2 _ _ hacc] at hr
      simp only [Option.some.injEq, Prod.mk.injEq] at hr
      rw [← hr.1] at hexit
      simp [Outcome.exitStatus] at hexit
    | true =>
      by_cases hlen : toSizeT (atoll a2) ≤ input.length
      · obtain ⟨w1, h1, h2, -, -⟩ :=
          main_converts_within_int codec self a1 a2 _ input hacc hint hlen
        rw [h1] at hr
        simp only [Option.some.injEq, Prod.mk.injEq] at hr
        rw [← hr.2, h2, List.length_take]
        omega
      · obtain ⟨w1, h1, -, -, -, -⟩ :=
          main_starves_within_int codec self a1 a2 _ input hacc (by omega) (by omega)
        rw [h1] at hr
        simp only [Option.some.injEq, Prod.mk.injEq] at hr
        rw [← hr.1] at hexit
        simp [Outcome.exitStatus] at hexit
  exact ⟨key, fun hlt hexit => by have := key hexit; omega⟩

/-! ## Frame counts beyond the range of the counter -/

/-- The run on `2 ^ 31` or more copies of one frame, with an accepted format and a frame
count between `2 ^ 31` and `2 ^ 64 - 2 ^ 31`: `main` returns 0 after `2 ^ 31` frames. -/
theorem main_counter_overflow (codec : Codec) (self a1 a2 a3 : String) (f : Frame)
    (extra : Nat) (hacc : codec.accepts a3 = true) (h1 : 2 ^ 31 ≤ toSizeT (atoll a2))
    (h2 : toSizeT (atoll a2) ≤ 2 ^ 64 - 2 ^ 31) :
    main codec [self, a1, a2, a3] (World.init (List.replicate (2 ^ 31 + extra) f))
      = some (.returned 0,
              { stdin := List.replicate extra f, stdout := List.replicate (2 ^ 31) f,
                stderr := [],
                trace := setupTrace (toSizeT (atoll a1)) (toSizeT (atoll a2)) a3
                          ++ transferTrace (List.replicate (2 ^ 31) f) }) := by
  rw [main_accepted codec self a1 a2 a3 _ hacc]
  rw [driverLoop_counter_overflow _ h1 h2 _ (List.replicate (2 ^ 31) f)
    (List.replicate extra f) (by simp only [World.init]; rw [List.replicate_add])
    (List.length_replicate _ _)]
  simp only [World.init, List.nil_append]

theorem toSizeT_atoll_2147483649 : toSizeT (atoll "2147483649") = 2 ^ 31 + 1 := by
  decide

/-- C1, at the frame count 2147483649 (which is `2 ^ 31 + 1`). The arguments are an atom
count of 1, that frame count and an accepted format, and the input holds that many
frames; `main` returns 0 with only the first `2 ^ 31` frames on the output, which is
not the first 2147483649 frames of the input. -/
theorem frame_count_beyond_int_truncates_output :
    0 < toSizeT (atoll "1") ∧ toSizeT (atoll "2147483649") = 2 ^ 31 + 1 ∧
    allFormats.accepts "XTC" = true ∧
    toSizeT (atoll "2147483649") ≤ (List.replicate (2 ^ 31 + 1) (Frame.mk [])).length ∧
    ∃ w', main allFormats ["chemfiles_bin_converter", "1", "2147483649", "XTC"]
        (World.init (List.replicate (2 ^ 31 + 1) (Frame.mk []))) = some (.returned 0, w') ∧
      w'.stdout = List.replicate (2 ^ 31) (Frame.mk []) ∧
      w'.stdout ≠ (List.replicate (2 ^ 31 + 1) (Frame.mk [])).take
                    (toSizeT (atoll "2147483649")) := by
  have hn := toSizeT_atoll_2147483649
  refine ⟨by decide, hn, rfl, ?_, ?_⟩
  · rw [hn, List.length_replicate]
  · refine ⟨_, main_counter_overflow allFormats _ "1" "2147483649" "XTC" (Frame.mk []) 1 rfl
      (by rw [hn]; omega) (by rw [hn]; omega), rfl, ?_⟩
    intro h
    have hl := congrArg List.length h
    rw [List.length_replicate, List.length_take, List.length_replicate, hn] at hl
    omega

/-- C3, at the frame count 2147483649 with 2147483648 frames on the input. The input is
shorter than the declared count, yet `main` returns 0 (exit status 0) once the `2 ^ 31`
frames are written: no read fails. -/
theorem starved_run_beyond_int_exits_zero :
    (List.replicate (2 ^ 31) (Frame.mk [])).length < toSizeT (atoll "2147483649") ∧
    allFormats.accepts "XTC" = true ∧
    ∃ w', main allFormats ["chemfiles_bin_converter", "1", "2147483649", "XTC"]
        (World.init (List.replicate (2 ^ 31) (Frame.mk []))) = some (.returned 0, w') ∧
      (Outcome.returned 0).exitStatus = 0 ∧
      w'.stdout = List.replicate (2 ^ 31) (Frame.mk []) ∧
      Op.read .trajectory none ∉ w'.trace := by
  have hn := toSizeT_atoll_2147483649
  refine ⟨by rw [hn, List.length_replicate]; omega, rfl, ?_⟩
  have h := main_counter_overflow allFormats "chemfiles_bin_converter" "1" "2147483649" "XTC"
    (Frame.mk []) 0 rfl (by rw [hn]; omega) (by rw [hn]; omega)
  rw [Nat.add_zero] at h
  refine ⟨_, h, rfl, rfl, ?_⟩
  intro hmem
  simp only at hmem
  rcases List.mem_append.mp hmem with hm | hm
  · simp [setupTrace] at hm
  · rcases mem_transferTrace _ _ hm with ⟨f, hf⟩ | ⟨f, hf⟩ <;> cases hf

/-- C5, at the frame count 2147483649 for `"Amber NetCDF"`. The count declared with
`set_nsteps` is 2147483649, the run writes `2 ^ 31` frames, one fewer, and `main`
returns 0 (exit status 0). -/
theorem declared_count_beyond_int_not_written :
    ∃ w', main allFormats ["chemfiles_bin_converter", "1", "2147483649", "Amber NetCDF"]
        (World.init (List.replicate (2 ^ 31 + 1) (Frame.mk []))) = some (.returned 0, w') ∧
      (Outcome.returned 0).exitStatus = 0 ∧
      Op.set_nsteps .output_trajectory (2 ^ 31 + 1) ∈ w'.trace ∧
      w'.stdout.length = 2 ^ 31 ∧ w'.stdout.length < 2 ^ 31 + 1 := by
  have hn := toSizeT_atoll_2147483649
  refine ⟨_, main_counter_overflow allFormats _ "1" "2147483649" "Amber NetCDF" (Frame.mk []) 1
    rfl (by rw [hn]; omega) (by rw [hn]; omega), rfl, ?_, ?_, ?_⟩
  · simp only
    rw [hn]
    apply List.mem_append_left
    simp [setupTrace]
  · simp only
    rw [List.length_replicate]
  · simp only
    rw [List.length_replicate]
    omega

/-- C9, at the bound `2 ^ 31 + 1` (the parsed value of `"2147483649"`). With as many
frames waiting as the bound asks for, so that no read fails, the loop returns after
`2 ^ 31` iterations: the trace is `2 ^ 31` read and write pairs, and one frame is left
unread on the input. -/
theorem loop_bound_beyond_int_stops_early :
    toSizeT (atoll "2147483649") = 2 ^ 31 + 1 ∧
    ∃ w', driverLoop loopFuel (2 ^ 31 + 1) 0
        (World.init (List.replicate (2 ^ 31 + 1) (Frame.mk []))) = some (.returned 0, w') ∧
      w'.trace = transferTrace (List.replicate (2 ^ 31) (Frame.mk [])) ∧
      w'.trace.length = 2 * 2 ^ 31 ∧
      w'.stdin = List.replicate 1 (Frame.mk []) := by
  refine ⟨toSizeT_atoll_2147483649, ?_⟩
  have h := driverLoop_counter_overflow (2 ^ 31 + 1) (by omega) (by omega)
    (World.init (List.replicate (2 ^ 31 + 1) (Frame.mk [])))
    (List.replicate (2 ^ 31) (Frame.mk [])) (List.replicate 1 (Frame.mk []))
    (by simp only [World.init]; rw [List.replicate_add]) (List.length_replicate _ _)
  refine ⟨_, h, ?_, ?_, rfl⟩
  · simp only [World.init, List.nil_append]
  · simp only [World.init, List.nil_append]
    rw [transferTrace_length, List.length_replicate]

end ChemfilesBinConverter
